import Mathlib

/-!
Verification development for the NeuralNetworkDataRefactor pipeline engine.

The definitions below are a shallow embedding of the Python source:
`src/pipelines/base_pipeline.py` (template-method orchestrator, cache-backed
extraction, context normalisation, generic one-hot step),
`src/pipelines/sessions.py` (session reconstruction and the sessions
extractor) and `src/main.py` (the driver loop).

Modelling conventions:
* pandas DataFrames become `Table`: an explicit column list plus rows that
  are association lists from column name to `Value`; a missing cell reads
  as `Value.vNull` (pandas NaN).
* timestamps become integer seconds; `pd.Timestamp.hour` and `day_name()`
  are recovered arithmetically from seconds since the Unix epoch (which
  fell on a Thursday).
* the float `duration_minutes` becomes an exact rational; the quantities
  compared in the source are small integer second counts divided by 60,
  for which real and rational arithmetic agree.
* the filesystem becomes an association list from path to stored table.
-/

namespace NNDR

/-- One row of the merged LOGIN/LOGOUT event stream consumed by
`SessionsPipeline._feature_engineering`, reduced to the fields the
algorithm reads: actor id, parsed timestamp (seconds), event tag. -/
structure SEvent where
  player_uuid : String
  ts : Int
  event_type : String
deriving DecidableEq, Repr

/-- The seven weekday labels, Monday first (pandas `day_name()` output). -/
def weekLabels : List String :=
  ["Monday", "Tuesday", "Wednesday", "Thursday", "Friday", "Saturday", "Sunday"]

/-- Weekday labels indexed from the Unix epoch day (1970-01-01, a Thursday). -/
def epochDayNames : List String :=
  ["Thursday", "Friday", "Saturday", "Sunday", "Monday", "Tuesday", "Wednesday"]

/-- Hour of day of a timestamp in seconds (`Timestamp.hour`). -/
def hourOf (t : Int) : Int := (t.ediv 3600).emod 24

/-- Weekday name of a timestamp in seconds (`Timestamp.day_name()`). -/
def dayNameOf (t : Int) : String :=
  epochDayNames.getD ((t.ediv 86400).emod 7).toNat "Monday"

/-- `(row['dt'] - login_dt).total_seconds() / 60` as an exact rational
(`mkRat s 60 = (s : ℚ) / 60`, proved in `durationMinutes_eq_div` below;
`mkRat` is used so the definition evaluates by kernel reduction). -/
def durationMinutes (login_dt logout_dt : Int) : ℚ :=
  mkRat (logout_dt - login_dt) 60

/-- One emitted session row (`session_data.append({...})` in the source). -/
structure Session where
  player_uuid : String
  duration_minutes : ℚ
  hour_of_day : Int
  day_of_week : String
deriving DecidableEq, Repr

/-- The session record built at a matched LOGIN/LOGOUT pair. -/
def mkSession (p : String) (login_dt logout_dt : Int) : Session :=
  ⟨p, durationMinutes login_dt logout_dt, hourOf login_dt, dayNameOf login_dt⟩

/-- The inner per-actor scan of `_feature_engineering`: `login_dt` is the
single open-login slot; a LOGIN overwrites it, a LOGOUT with an open slot
emits a session when `0 < duration < 1440` and always clears the slot,
any other event leaves the slot untouched. -/
def scanGo (p : String) : Option Int → List SEvent → List Session
  | _, [] => []
  | login_dt, e :: rest =>
    if e.event_type = "LOGIN" then scanGo p (some e.ts) rest
    else if e.event_type = "LOGOUT" then
      match login_dt with
      | some l =>
        (if 0 < durationMinutes l e.ts ∧ durationMinutes l e.ts < 1440
          then [mkSession p l e.ts] else []) ++ scanGo p none rest
      | none => scanGo p none rest
    else scanGo p login_dt rest

/-- The open-login slot left after scanning a list of events (used only to
state how `scanGo` splits across an append). -/
def scanState : Option Int → List SEvent → Option Int
  | s, [] => s
  | s, e :: rest =>
    if e.event_type = "LOGIN" then scanState (some e.ts) rest
    else if e.event_type = "LOGOUT" then scanState none rest
    else scanState s rest

/-- `group.sort_values('dt')`: stable sort of a partition by timestamp. -/
def sortEvents (l : List SEvent) : List SEvent :=
  List.insertionSort (fun a b => a.ts ≤ b.ts) l

/-- First-occurrence deduplication of a list of actor ids. -/
def dedupKeep (l : List String) : List String :=
  l.foldl (fun acc p => if acc.contains p then acc else acc ++ [p]) []

/-- The group keys of `df.groupby('player_uuid')` (distinct actors in
ascending order, as pandas sorts group keys). -/
def playersOf (events : List SEvent) : List String :=
  List.insertionSort (fun a b => a ≤ b) (dedupKeep (events.map (·.player_uuid)))

/-- The partition of one actor, timestamp-sorted, then scanned. -/
def sessionsFor (events : List SEvent) (p : String) : List Session :=
  scanGo p none (sortEvents (events.filter (fun e => e.player_uuid == p)))

/-- `SessionsPipeline._feature_engineering` on the merged event stream:
partition by actor, sort each partition by timestamp, scan each partition
with a single open-login slot, concatenate the emitted sessions. -/
def feature_engineering (events : List SEvent) : List Session :=
  (playersOf events).flatMap (sessionsFor events)

/-- A cell / decoded-context value: the scalar and container shapes the
pipelines traffic in. pandas NaN is `vNull`. Floating point numerals are
outside the model (see `numTail`); python tuples, sets and non-string dict
keys are likewise outside the modelled value universe. -/
inductive Value where
  | vInt : Int → Value
  | vBool : Bool → Value
  | vNull : Value
  | vStr : String → Value
  | vList : List Value → Value
  | vDict : List (String × Value) → Value
deriving Repr

/-- Left brace character (written via its code point). -/
def lbr : Char := Char.ofNat 123

/-- Right brace character (written via its code point). -/
def rbr : Char := Char.ofNat 125

/-- Single-quote character (written via its code point). -/
def sqChar : Char := Char.ofNat 39

/-- JSON / python source whitespace. -/
def isWsChar (c : Char) : Bool := c = ' ' || c = '\t' || c = '\n' || c = '\r'

/-- Drop leading whitespace. -/
def skipWs : List Char → List Char
  | [] => []
  | c :: cs => if isWsChar c then skipWs cs else c :: cs

/-- Escape sequences accepted inside string literals. `allowSingle` marks
the python dialect, which additionally accepts an escaped single quote.
Unicode escapes are outside the model. -/
def unescapeChar (allowSingle : Bool) (c : Char) : Option Char :=
  if c = '"' then some '"'
  else if c = '\\' then some '\\'
  else if c = '/' then some '/'
  else if c = 'n' then some '\n'
  else if c = 't' then some '\t'
  else if c = 'r' then some '\r'
  else if c = 'b' then some (Char.ofNat 8)
  else if c = 'f' then some (Char.ofNat 12)
  else if allowSingle && c = sqChar then some sqChar
  else none

/-- Body of a string literal delimited by quote `q`, after the opening
quote has been consumed; returns the decoded string and the rest. -/
def strBody (allowSingle : Bool) (q : Char) : List Char → Option (String × List Char)
  | [] => none
  | c :: cs =>
    if c = q then some ("", cs)
    else if c = '\\' then
      match cs with
      | [] => none
      | e :: cs' =>
        match unescapeChar allowSingle e with
        | some u => (strBody allowSingle q cs').map (fun p => (String.singleton u ++ p.1, p.2))
        | none => none
    else (strBody allowSingle q cs).map (fun p => (String.singleton c ++ p.1, p.2))

/-- Consume an exact literal character sequence. -/
def expectLit : List Char → List Char → Option (List Char)
  | [], rest => some rest
  | _ :: _, [] => none
  | l :: ls, c :: rest => if c = l then expectLit ls rest else none

/-- Longest leading run of decimal digits. -/
def takeDigits : List Char → (List Char × List Char)
  | [] => ([], [])
  | c :: cs =>
    if c.isDigit then
      let p := takeDigits cs
      (c :: p.1, p.2)
    else ([], c :: cs)

/-- Numeric value of a digit run. -/
def digitsVal (ds : List Char) : Nat :=
  ds.foldl (fun a c => a * 10 + (c.toNat - 48)) 0

/-- Integer numeral after an optional sign: a non-empty digit run with no
leading zero (both decoders reject `01`). A following `.`, `e` or `E`
would start a floating-point literal, which is outside the model, so the
decode is rejected there rather than misread. -/
def numTail (neg : Bool) (cs : List Char) : Option (Value × List Char) :=
  let p := takeDigits cs
  if p.1.isEmpty then none
  else if 1 < p.1.length && p.1.headD '0' = '0' then none
  else
    let n : Int := (digitsVal p.1 : Int)
    let v := Value.vInt (if neg then -n else n)
    match p.2 with
    | d :: _ => if d = '.' || d = 'e' || d = 'E' then none else some (v, p.2)
    | [] => some (v, [])

/-- Comma-separated `key : value` members of a dict literal, up to the
closing `close` character. `keyFn` decodes one key literal, `jv` one
value. Fuel-indexed so the definition is structural and kernel-reducible. -/
def membersLoop (keyFn : List Char → Option (String × List Char))
    (jv : List Char → Option (Value × List Char)) (close : Char) :
    Nat → List Char → Option (List (String × Value) × List Char)
  | 0, _ => none
  | f + 1, cs =>
    match keyFn (skipWs cs) with
    | none => none
    | some (k, r1) =>
      match skipWs r1 with
      | [] => none
      | c2 :: r2 =>
        if c2 = ':' then
          match jv r2 with
          | none => none
          | some (v, r3) =>
            match skipWs r3 with
            | [] => none
            | c3 :: r4 =>
              if c3 = ',' then
                match membersLoop keyFn jv close f r4 with
                | none => none
                | some (ps, r5) => some ((k, v) :: ps, r5)
              else if c3 = close then some ([(k, v)], r4)
              else none
        else none

/-- Comma-separated elements of a list literal up to `close`. -/
def elemsLoop (jv : List Char → Option (Value × List Char)) (close : Char) :
    Nat → List Char → Option (List Value × List Char)
  | 0, _ => none
  | f + 1, cs =>
    match jv cs with
    | none => none
    | some (v, r1) =>
      match skipWs r1 with
      | [] => none
      | c :: r2 =>
        if c = ',' then
          match elemsLoop jv close f r2 with
          | none => none
          | some (vs, r3) => some (v :: vs, r3)
        else if c = close then some ([v], r2)
        else none

/-- A strict-JSON object key: a double-quoted string literal. -/
def jsonKeyStr (cs : List Char) : Option (String × List Char) :=
  match cs with
  | [] => none
  | c :: rest => if c = '"' then strBody false '"' rest else none

/-- One strict-JSON value (model of `json.loads` grammar on the modelled
value universe): double-quoted strings, lowercase `true`/`false`/`null`,
integers, objects, arrays. -/
def jsonV : Nat → List Char → Option (Value × List Char)
  | 0, _ => none
  | f + 1, cs =>
    match skipWs cs with
    | [] => none
    | c :: rest =>
      if c = '"' then (strBody false '"' rest).map (fun p => (Value.vStr p.1, p.2))
      else if c = 't' then (expectLit ['r', 'u', 'e'] rest).map (fun r => (Value.vBool true, r))
      else if c = 'f' then (expectLit ['a', 'l', 's', 'e'] rest).map (fun r => (Value.vBool false, r))
      else if c = 'n' then (expectLit ['u', 'l', 'l'] rest).map (fun r => (Value.vNull, r))
      else if c = lbr then
        match skipWs rest with
        | [] => none
        | d :: rest2 =>
          if d = rbr then some (Value.vDict [], rest2)
          else (membersLoop jsonKeyStr (jsonV f) rbr (rest.length + 1) rest).map
            (fun p => (Value.vDict p.1, p.2))
      else if c = '[' then
        match skipWs rest with
        | [] => none
        | d :: rest2 =>
          if d = ']' then some (Value.vList [], rest2)
          else (elemsLoop (jsonV f) ']' (rest.length + 1) rest).map
            (fun p => (Value.vList p.1, p.2))
      else if c = '-' then numTail true rest
      else if c.isDigit then numTail false (c :: rest)
      else none

/-- A python string literal: single- or double-quoted. -/
def pyStrLit (cs : List Char) : Option (String × List Char) :=
  match cs with
  | [] => none
  | c :: rest => if c = '"' || c = sqChar then strBody true c rest else none

/-- One python literal (model of `ast.literal_eval` grammar on the
modelled value universe): strings with either quote, capitalised
`True`/`False`/`None`, signed integers, dicts with string-literal keys,
lists. -/
def pyV : Nat → List Char → Option (Value × List Char)
  | 0, _ => none
  | f + 1, cs =>
    match skipWs cs with
    | [] => none
    | c :: rest =>
      if c = '"' || c = sqChar then (strBody true c rest).map (fun p => (Value.vStr p.1, p.2))
      else if c = 'T' then (expectLit ['r', 'u', 'e'] rest).map (fun r => (Value.vBool true, r))
      else if c = 'F' then (expectLit ['a', 'l', 's', 'e'] rest).map (fun r => (Value.vBool false, r))
      else if c = 'N' then (expectLit ['o', 'n', 'e'] rest).map (fun r => (Value.vNull, r))
      else if c = lbr then
        match skipWs rest with
        | [] => none
        | d :: rest2 =>
          if d = rbr then some (Value.vDict [], rest2)
          else (membersLoop pyStrLit (pyV f) rbr (rest.length + 1) rest).map
            (fun p => (Value.vDict p.1, p.2))
      else if c = '[' then
        match skipWs rest with
        | [] => none
        | d :: rest2 =>
          if d = ']' then some (Value.vList [], rest2)
          else (elemsLoop (pyV f) ']' (rest.length + 1) rest).map
            (fun p => (Value.vList p.1, p.2))
      else if c = '-' then numTail true rest
      else if c = '+' then numTail false rest
      else if c.isDigit then numTail false (c :: rest)
      else none

/-- `json.loads`: one value, surrounding whitespace allowed, nothing may
follow; `none` models a raised `JSONDecodeError`. -/
def json_loads (s : String) : Option Value :=
  match jsonV (s.length + 1) s.data with
  | some (v, rest) => if (skipWs rest).isEmpty then some v else none
  | none => none

/-- `ast.literal_eval`: one python literal, surrounding whitespace
allowed, nothing may follow; `none` models a raised
`ValueError`/`SyntaxError`. -/
def literal_eval (s : String) : Option Value :=
  match pyV (s.length + 1) s.data with
  | some (v, rest) => if (skipWs rest).isEmpty then some v else none
  | none => none

/-- `safe_json_load` from `BaseDataPipeline._clean_json_context`: a dict
is returned as-is; a string is decoded as strict JSON, falling back to a
permissive python literal decode, falling back to the empty dict; any
other value contributes the empty dict. Total — decoding never raises. -/
def safe_json_load (x : Value) : Value :=
  match x with
  | .vDict d => .vDict d
  | .vStr s =>
    match json_loads s with
    | some v => v
    | none =>
      match literal_eval s with
      | some v => v
      | none => .vDict []
  | _ => .vDict []

/-- The single-quote character as a one-character string. -/
def sq : String := String.singleton sqChar

/-- The strict-JSON context blob of the dual-format example. -/
def strictBlob : String := "\x7b\"species\": \"Pikachu\", \"isShiny\": true\x7d"

/-- The loosely-quoted (python-literal) equivalent of `strictBlob`. -/
def looseBlob : String :=
  "\x7b" ++ sq ++ "species" ++ sq ++ ": " ++ sq ++ "Pikachu" ++ sq ++ ", " ++
    sq ++ "isShiny" ++ sq ++ ": True\x7d"

/-- The undecodable context blob of the failure-tolerance example. -/
def badBlob : String := "not json\x7b\x7b\x7b"

/-- A record: association list from column name to value; lookup is
first-match. -/
abbrev Rec := List (String × Value)

/-- A pandas DataFrame: explicit column list plus one `Rec` per row; a
cell absent from a row reads as NaN (`vNull`). -/
structure Table where
  cols : List String
  recs : List Rec

/-- `df.empty`: true when either axis has length zero. -/
def Table.isEmpty (t : Table) : Bool := t.recs.isEmpty || t.cols.isEmpty

/-- Read one cell of a record; NaN when the key is absent. -/
def recCell (r : Rec) (k : String) : Value := (r.lookup k).getD .vNull

mutual
/-- Dotted-path flattening performed by `pd.json_normalize` on one value
of a decoded context dict: a nested dict under key `k` contributes
`k.inner` columns; any other value is kept as-is under its key. -/
def flattenOne (pre k : String) : Value → List (String × Value)
  | .vDict d' => flattenPairs (pre ++ k ++ ".") d'
  | v => [(pre ++ k, v)]
/-- Flatten every pair of a decoded context dict under path `pre`. -/
def flattenPairs (pre : String) : List (String × Value) → List (String × Value)
  | [] => []
  | kv :: kvs => flattenOne pre kv.1 kv.2 ++ flattenPairs pre kvs
end

/-- Flatten one decoded context dict starting from the empty path. -/
def flattenTop (d : List (String × Value)) : List (String × Value) :=
  flattenPairs "" d

/-- View a decoded context value as a mapping. `_clean_json_context`
feeds `pd.json_normalize` the output of `safe_json_load`; when that
output is not a dict — a context string that decodes successfully to a
scalar or list, such as `"5"` or `"[1, 2]"` — the source raises inside
`json_normalize` and produces no table at all. The model maps that case
to the empty mapping to stay total, and every theorem about
`clean_json_context` therefore carries the explicit `decodesToDicts`
hypothesis confining it to inputs on which the source does not raise. -/
def asDict : Value → List (String × Value)
  | .vDict d => d
  | _ => []

/-- Dict test on a decoded context value. -/
def Value.isDict : Value → Bool
  | .vDict _ => true
  | _ => false

/-- The domain on which `_clean_json_context` does not raise: whenever
the `context_data` column exists (the only case where the source reaches
`pd.json_normalize`), every row's decoded context is a mapping. -/
abbrev decodesToDicts (df : Table) : Prop :=
  df.cols.contains "context_data" = true →
    ∀ r ∈ df.recs, (safe_json_load (recCell r "context_data")).isDict = true

/-- Accumulate keys not yet present, keeping first-appearance order. -/
def addKeys (acc : List String) : List String → List String
  | [] => acc
  | k :: ks => if acc.contains k then addKeys acc ks else addKeys (acc ++ [k]) ks

/-- Column set of `pd.json_normalize` / `pd.DataFrame(records)`: the
union of the records' keys in first-appearance order. -/
def unionKeys (rs : List Rec) : List String :=
  rs.foldl (fun acc r => addKeys acc (r.map Prod.fst)) []

/-- `df['context_data'].apply(safe_json_load)` then `pd.json_normalize`:
one flattened context dict per row. -/
def ctxParsed (df : Table) : List Rec :=
  df.recs.map (fun r => flattenTop (asDict (safe_json_load (recCell r "context_data"))))

/-- The decoded-context columns that survive the collision drop
(`df_context.columns` minus `cols_to_drop`). -/
def ctxKeep (df : Table) : List String :=
  (unionKeys (ctxParsed df)).filter (fun c => !(df.cols.contains c))

/-- `BaseDataPipeline._clean_json_context`: decode every record's
`context_data` cell with `safe_json_load`, flatten it, drop the decoded
columns that collide with an existing column of the frame, join the rest
onto the frame, and drop the `context_data` column itself. -/
def clean_json_context (df : Table) : Table :=
  if df.cols.contains "context_data" then
    ⟨df.cols.filter (fun c => c ≠ "context_data") ++ ctxKeep df,
      (df.recs.zip (ctxParsed df)).map (fun rc =>
        rc.1.filter (fun kv => kv.1 ≠ "context_data") ++
          (ctxKeep df).map (fun k => (k, recCell rc.2 k)))⟩
  else df

/-- Scalar equality as used by `pd.get_dummies` to group category
values; container values are unhashable in pandas and outside the
modelled behaviours, so they never compare equal here. -/
def Value.scalarEq : Value → Value → Bool
  | .vInt a, .vInt b => a == b
  | .vBool a, .vBool b => a == b
  | .vStr a, .vStr b => a == b
  | .vNull, .vNull => true
  | _, _ => false

/-- NaN test. -/
def Value.isNull : Value → Bool
  | .vNull => true
  | _ => false

/-- Scalar test (hashable category value). -/
def Value.isScalar : Value → Bool
  | .vList _ => false
  | .vDict _ => false
  | _ => true

/-- `str(value)` as it appears in dummy column names. -/
def strOfValue : Value → String
  | .vStr s => s
  | .vInt n => toString n
  | .vBool b => if b then "True" else "False"
  | .vNull => "nan"
  | .vList _ => ""
  | .vDict _ => ""

/-- Distinct category values, first occurrence kept. `pd.get_dummies`
additionally sorts the categories; none of the properties proved below
depend on the relative order of the appended indicator columns. -/
def dedupVals (l : List Value) : List Value :=
  l.foldl (fun acc v => if acc.any (Value.scalarEq v) then acc else acc ++ [v]) []

/-- One column of a table as a list of cells. -/
def colValues (df : Table) (c : String) : List Value :=
  df.recs.map (fun r => recCell r c)

/-- The generic global feature step in `BaseDataPipeline.run`:
`pd.get_dummies(df['server_id'], prefix='server')` concatenated onto the
frame along axis 1, applied only when the column exists. NaN cells
produce no category. -/
def server_dummies_step (df : Table) : Table :=
  if df.cols.contains "server_id" then
    let cats := dedupVals ((colValues df "server_id").filter (fun v => !(v.isNull)))
    ⟨df.cols ++ cats.map (fun u => "server_" ++ strOfValue u),
      df.recs.map (fun r =>
        r ++ cats.map (fun u =>
          ("server_" ++ strOfValue u,
            Value.vBool (Value.scalarEq (recCell r "server_id") u))))⟩
  else df

/-- The filesystem seen through `os.path.exists` / `read_csv` / `to_csv`:
an association list from path to the stored table. -/
structure FS where
  files : List (String × Table)

/-- `os.path.exists` + `pd.read_csv` combined: the stored table, if any. -/
def FS.read (fs : FS) (p : String) : Option Table := fs.files.lookup p

/-- `df.to_csv(p)`: create or overwrite the file at `p`. -/
def FS.write (fs : FS) (p : String) (t : Table) : FS :=
  ⟨(p, t) :: fs.files.filter (fun q => q.1 ≠ p)⟩

/-- `pd.DataFrame()` with no data. -/
def emptyTable : Table := ⟨[], []⟩

/-- `pd.DataFrame(records)`: columns are the union of the records' keys
in first-appearance order; each row keeps its own key/value pairs. -/
def tableOfRecords (data : List Rec) : Table := ⟨unionKeys data, data⟩

/-- `BaseDataPipeline._extract_data`: return the cached file verbatim if
present; otherwise fetch, returning an empty table on an empty result and
persisting a non-empty result before returning it. -/
def base_extract_data (fetch : String → List Rec) (action_type raw_path : String)
    (fs : FS) : Table × FS :=
  match fs.read raw_path with
  | some df => (df, fs)
  | none =>
    let data := fetch action_type
    if data.isEmpty then (emptyTable, fs)
    else (tableOfRecords data, fs.write raw_path (tableOfRecords data))

/-- `df[c] = v`: assign a constant column (appended when new; for the
tagging in the sessions extractor the column is always new). -/
def setConstCol (df : Table) (c : String) (v : Value) : Table :=
  ⟨if df.cols.contains c then df.cols else df.cols ++ [c],
    df.recs.map (fun r => r.filter (fun kv => kv.1 ≠ c) ++ [(c, v)])⟩

/-- `pd.concat([a, b], ignore_index=True)`: rows of `a` then rows of
`b`; the column set is the union in first-appearance order. -/
def concatTables (a b : Table) : Table :=
  ⟨a.cols ++ b.cols.filter (fun c => !(a.cols.contains c)), a.recs ++ b.recs⟩

/-- `Config.RAW_DIR` joined with the login cache file name. -/
def login_raw_path : String := "data/raw/dataset_SESSION_LOGIN_raw.csv"

/-- `Config.RAW_DIR` joined with the logout cache file name. -/
def logout_raw_path : String := "data/raw/dataset_SESSION_LOGOUT_raw.csv"

/-- `SessionsPipeline._extract_data`: for each of the two event types,
read the cache file if it exists, otherwise fetch and write the fetched
table to the cache file (unconditionally, empty or not); tag each
non-empty table with its `event_type`; concatenate login rows then
logout rows. -/
def sessions_extract_data (fetch : String → List Rec) (fs : FS) : Table × FS :=
  let lp :=
    match fs.read login_raw_path with
    | some df => (df, fs)
    | none =>
      let l := tableOfRecords (fetch "SESSION_LOGIN")
      (l, fs.write login_raw_path l)
  let gp :=
    match lp.2.read logout_raw_path with
    | some df => (df, lp.2)
    | none =>
      let g := tableOfRecords (fetch "SESSION_LOGOUT")
      (g, lp.2.write logout_raw_path g)
  let logins := if lp.1.isEmpty then lp.1 else setConstCol lp.1 "event_type" (.vStr "LOGIN")
  let logouts := if gp.1.isEmpty then gp.1 else setConstCol gp.1 "event_type" (.vStr "LOGOUT")
  (concatTables logins logouts, gp.2)

/-- The observable outcome of one `run()`: the artifact, the filesystem,
and which lifecycle steps were invoked. -/
structure RunResult where
  viz : List (String × String)
  fs : FS
  normalizeCalled : Bool
  featureCalled : Bool
  vizCalled : Bool
  wroteClean : Bool

/-- `BaseDataPipeline.run`: extract; halt on an empty table with an
empty artifact; otherwise normalise context, apply the pluggable domain
feature step, the generic server one-hot step, persist the cleaned
table, and build the visualization artifact. `extract` abstracts
`_extract_data` (base or sessions variant), `fe` and `viz` the two
pluggable domain steps. -/
def pipeline_run (extract : FS → Table × FS) (fe : Table → Table)
    (viz : Table → List (String × String)) (clean_path : String) (fs : FS) : RunResult :=
  let e := extract fs
  if e.1.isEmpty then ⟨[], e.2, false, false, false, false⟩
  else
    let df1 := clean_json_context e.1
    let df2 := fe df1
    let df3 := server_dummies_step df2
    ⟨viz df3, e.2.write clean_path df3, true, true, true, true⟩

/-- One pipeline as the driver sees it: its output name and the outcome
of its `run()` (an artifact, or a raised exception message). -/
structure Pipe where
  output_name : String
  result : Except String (List (String × String))
deriving Repr

/-- One iteration of the driver loop in `main`: `run()` is attempted (the
pipeline's name is always recorded as executed); a raised exception is
caught and logged; a non-empty artifact is recorded under the pipeline's
output name. -/
def main_loop_step (acc : List (String × List (String × String)) × List String)
    (p : Pipe) : List (String × List (String × String)) × List String :=
  match p.result with
  | .error _ => (acc.1, acc.2 ++ [p.output_name])
  | .ok v =>
    ((if v.isEmpty then acc.1 else acc.1 ++ [(p.output_name, v)]), acc.2 ++ [p.output_name])

/-- The driver loop in `main` over the whole pipeline list. Returns the
consolidated mapping handed to `HTMLGenerator.generate_report`, and the
names on which `run()` was called, in order. -/
def main_loop (ps : List Pipe) : List (String × List (String × String)) × List String :=
  ps.foldl main_loop_step ([], [])

/-- The artifact entries the driver loop accumulates: one per pipeline
whose `run()` returned a non-empty artifact, in pipeline order (used only
to characterise `main_loop` in the proofs below). -/
def okArtifacts : List Pipe → List (String × List (String × String))
  | [] => []
  | p :: ps =>
    match p.result with
    | .ok v => if v.isEmpty then okArtifacts ps else (p.output_name, v) :: okArtifacts ps
    | .error _ => okArtifacts ps

/-! ## Theorems -/

/-- `mkRat s 60` agrees with the real-division reading `s / 60` of the
source's `total_seconds() / 60`. -/
theorem durationMinutes_eq_div (l o : Int) :
    durationMinutes l o = ((o - l : Int) : ℚ) / 60 := by
  unfold durationMinutes
  rw [Rat.mkRat_eq_div]
  norm_num

/-- The scan splits over an append: the tail is scanned from the open
slot the head leaves behind. -/
theorem scanGo_append (p : String) (s : Option Int) (l1 l2 : List SEvent) :
    scanGo p s (l1 ++ l2) = scanGo p s l1 ++ scanGo p (scanState s l1) l2 := by
  induction l1 generalizing s with
  | nil => simp [scanGo, scanState]
  | cons e rest ih =>
    by_cases h1 : e.event_type = "LOGIN"
    · simp [scanGo, scanState, h1, ih]
    · by_cases h2 : e.event_type = "LOGOUT"
      · cases s with
        | some l => simp [scanGo, scanState, h1, h2, ih, List.append_assoc]
        | none => simp [scanGo, scanState, h1, h2, ih]
      · simp [scanGo, scanState, h1, h2, ih]

/-- A LOGIN head overwrites whatever slot was open. -/
theorem scanGo_login (p : String) (s : Option Int) (t : Int) (pl : String)
    (rest : List SEvent) :
    scanGo p s (⟨pl, t, "LOGIN"⟩ :: rest) = scanGo p (some t) rest := by
  simp [scanGo]

/-- A LOGOUT head against an open slot emits the session exactly when
the duration is strictly inside the window, and always clears the slot. -/
theorem scanGo_logout (p : String) (l t : Int) (pl : String) (rest : List SEvent) :
    scanGo p (some l) (⟨pl, t, "LOGOUT"⟩ :: rest) =
      (if 0 < durationMinutes l t ∧ durationMinutes l t < 1440
        then [mkSession p l t] else []) ++ scanGo p none rest := by
  simp [scanGo]

/-- C1: in a per-actor partition, a LOGIN immediately followed by a
LOGOUT whose duration lies strictly between 0 and 1440 minutes emits
exactly one Session for that pair — with `duration_minutes` the
difference in minutes, `hour_of_day` the login hour and `day_of_week`
the login weekday name — regardless of what precedes or follows; in
particular LOGIN at 2024-01-01T10:00:00 and LOGOUT at
2024-01-01T10:45:00 yield one Session `(45, 10, "Monday")`. -/
theorem session_happy_path :
    (∀ (p : String) (pre post : List SEvent) (t1 t2 : Int),
      0 < durationMinutes t1 t2 → durationMinutes t1 t2 < 1440 →
      scanGo p none (pre ++ ⟨p, t1, "LOGIN"⟩ :: ⟨p, t2, "LOGOUT"⟩ :: post) =
        scanGo p none pre ++ mkSession p t1 t2 :: scanGo p none post) ∧
    feature_engineering [⟨"A", 1704103200, "LOGIN"⟩, ⟨"A", 1704105900, "LOGOUT"⟩] =
      [⟨"A", 45, 10, "Monday"⟩] := by
  constructor
  · intro p pre post t1 t2 h1 h2
    rw [scanGo_append, scanGo_login, scanGo_logout, if_pos ⟨h1, h2⟩]
    simp
  · decide

/-- Witness for `session_happy_path` at the spec's own example. -/
theorem session_happy_path_witness :
    scanGo "A" none ([] ++ ⟨"A", 1704103200, "LOGIN"⟩ :: ⟨"A", 1704105900, "LOGOUT"⟩ :: []) =
      scanGo "A" none [] ++ mkSession "A" 1704103200 1704105900 :: scanGo "A" none [] :=
  session_happy_path.1 "A" [] [] 1704103200 1704105900 (by decide) (by decide)

/-- C2 counterexample: LOGIN, LOGIN, LOGOUT for one actor at the
ascending times 0 s, 60 s, 86460 s gives the replacing pair a duration
of exactly 1440 minutes, which the filter discards, so the code emits
zero Sessions where the claim, read literally, promises exactly one. -/
theorem login_replacement_cex :
    feature_engineering [⟨"A", 0, "LOGIN"⟩, ⟨"A", 60, "LOGIN"⟩, ⟨"A", 86460, "LOGOUT"⟩] =
      [] := by
  decide

/-- C2 amended: a LOGIN followed by another LOGIN before any LOGOUT is
silently discarded and never pairs with a later LOGOUT (the new LOGIN
overwrites the slot whatever it held); LOGIN, LOGIN, LOGOUT in ascending
time yields exactly one Session — paired with the second LOGIN — when
the second-LOGIN-to-LOGOUT duration lies strictly between 0 and 1440
minutes, and zero Sessions otherwise; a LOGIN still open when the
partition is exhausted yields zero Sessions. -/
theorem login_replacement_amended :
    (∀ (p pl : String) (s : Option Int) (t : Int) (rest : List SEvent),
      scanGo p s (⟨pl, t, "LOGIN"⟩ :: rest) = scanGo p (some t) rest) ∧
    (∀ (p pl : String) (pre : List SEvent) (t : Int),
      scanGo p none (pre ++ [⟨pl, t, "LOGIN"⟩]) = scanGo p none pre) ∧
    (∀ (p : String) (pre post : List SEvent) (t1 t2 t3 : Int),
      0 < durationMinutes t2 t3 → durationMinutes t2 t3 < 1440 →
      scanGo p none
          (pre ++ ⟨p, t1, "LOGIN"⟩ :: ⟨p, t2, "LOGIN"⟩ :: ⟨p, t3, "LOGOUT"⟩ :: post) =
        scanGo p none pre ++ mkSession p t2 t3 :: scanGo p none post) ∧
    (∀ (p : String) (pre post : List SEvent) (t1 t2 t3 : Int),
      ¬(0 < durationMinutes t2 t3 ∧ durationMinutes t2 t3 < 1440) →
      scanGo p none
          (pre ++ ⟨p, t1, "LOGIN"⟩ :: ⟨p, t2, "LOGIN"⟩ :: ⟨p, t3, "LOGOUT"⟩ :: post) =
        scanGo p none pre ++ scanGo p none post) := by
  refine ⟨fun p pl s t rest => scanGo_login p s t pl rest, ?_, ?_, ?_⟩
  · intro p pl pre t
    rw [scanGo_append, scanGo_login]
    simp [scanGo]
  · intro p pre post t1 t2 t3 h1 h2
    rw [scanGo_append, scanGo_login, scanGo_login, scanGo_logout, if_pos ⟨h1, h2⟩]
    simp
  · intro p pre post t1 t2 t3 h
    rw [scanGo_append, scanGo_login, scanGo_login, scanGo_logout, if_neg h]
    simp

/-- Witness for `login_replacement_amended`: the three-event stream
LOGIN at 0 s, LOGIN at 600 s, LOGOUT at 3300 s pairs the LOGOUT with the
second LOGIN (45 minutes), not the first. -/
theorem login_replacement_amended_witness :
    scanGo "A" none
        ([] ++ ⟨"A", 0, "LOGIN"⟩ :: ⟨"A", 600, "LOGIN"⟩ :: ⟨"A", 3300, "LOGOUT"⟩ :: []) =
      scanGo "A" none [] ++ mkSession "A" 600 3300 :: scanGo "A" none [] :=
  login_replacement_amended.2.2.1 "A" [] [] 0 600 3300 (by decide) (by decide)

/-- Hour of day lies in `[0, 24)`. -/
theorem hourOf_bounds (t : Int) : 0 ≤ hourOf t ∧ hourOf t < 24 :=
  ⟨Int.emod_nonneg _ (by decide), Int.emod_lt_of_pos _ (by decide)⟩

/-- The weekday name of any instant is one of the seven labels. -/
theorem dayNameOf_mem (t : Int) : dayNameOf t ∈ weekLabels := by
  unfold dayNameOf
  have h1 : 0 ≤ (t.ediv 86400).emod 7 := Int.emod_nonneg _ (by decide)
  have h2 : (t.ediv 86400).emod 7 < 7 := Int.emod_lt_of_pos _ (by decide)
  have h3 : ((t.ediv 86400).emod 7).toNat < 7 := by omega
  set n := ((t.ediv 86400).emod 7).toNat with hn
  interval_cases n <;> decide

/-- Every session the scan emits satisfies the entity invariant. -/
theorem scanGo_mem_invariant (p : String) (s : Option Int) (l : List SEvent)
    (sess : Session) (h : sess ∈ scanGo p s l) :
    0 < sess.duration_minutes ∧ sess.duration_minutes < 1440 ∧
      0 ≤ sess.hour_of_day ∧ sess.hour_of_day ≤ 23 ∧ sess.day_of_week ∈ weekLabels := by
  induction l generalizing s with
  | nil => simp [scanGo] at h
  | cons e rest ih =>
    by_cases h1 : e.event_type = "LOGIN"
    · rw [show (e : SEvent) = ⟨e.player_uuid, e.ts, "LOGIN"⟩ by cases e; simp_all,
        scanGo_login] at h
      exact ih _ h
    · by_cases h2 : e.event_type = "LOGOUT"
      · cases s with
        | none =>
          simp only [scanGo, h1, h2, if_true, if_false] at h
          exact ih _ h
        | some lo =>
          rw [show (e : SEvent) = ⟨e.player_uuid, e.ts, "LOGOUT"⟩ by cases e; simp_all,
            scanGo_logout] at h
          rcases List.mem_append.mp h with hin | hin
          · by_cases hc : 0 < durationMinutes lo e.ts ∧ durationMinutes lo e.ts < 1440
            · rw [if_pos hc] at hin
              simp only [List.mem_singleton] at hin
              subst hin
              simp only [mkSession]
              have hb := hourOf_bounds lo
              exact ⟨hc.1, hc.2, hb.1, by omega, dayNameOf_mem lo⟩
            · rw [if_neg hc] at hin
              simp at hin
          · exact ih _ hin
      · simp only [scanGo, h1, h2, if_false] at h
        exact ih _ h

/-- C7: every Session produced by session reconstruction has
`duration_minutes` strictly inside `(0, 1440)`, `hour_of_day` in 0–23
and `day_of_week` among the seven weekday labels; and a pair whose
duration falls outside the window contributes no Session at all — the
LOGOUT merely clears the slot, never clamping the value. -/
theorem session_entity_invariant :
    (∀ (events : List SEvent) (sess : Session), sess ∈ feature_engineering events →
      0 < sess.duration_minutes ∧ sess.duration_minutes < 1440 ∧
        0 ≤ sess.hour_of_day ∧ sess.hour_of_day ≤ 23 ∧ sess.day_of_week ∈ weekLabels) ∧
    (∀ (p pl : String) (l t : Int) (rest : List SEvent),
      ¬(0 < durationMinutes l t ∧ durationMinutes l t < 1440) →
      scanGo p (some l) (⟨pl, t, "LOGOUT"⟩ :: rest) = scanGo p none rest) := by
  constructor
  · intro events sess h
    rcases List.mem_flatMap.mp h with ⟨q, _, hq⟩
    exact scanGo_mem_invariant _ _ _ _ hq
  · intro p pl l t rest h
    rw [scanGo_logout, if_neg h]
    simp

/-- Witness for `session_entity_invariant` at the happy-path stream and
at an out-of-window LOGOUT. -/
theorem session_entity_invariant_witness :
    (0 < (mkSession "A" 1704103200 1704105900).duration_minutes ∧
      (mkSession "A" 1704103200 1704105900).duration_minutes < 1440 ∧
      0 ≤ (mkSession "A" 1704103200 1704105900).hour_of_day ∧
      (mkSession "A" 1704103200 1704105900).hour_of_day ≤ 23 ∧
      (mkSession "A" 1704103200 1704105900).day_of_week ∈ weekLabels) ∧
    scanGo "A" (some 0) [⟨"A", 90000, "LOGOUT"⟩] = scanGo "A" none [] :=
  ⟨session_entity_invariant.1
      [⟨"A", 1704103200, "LOGIN"⟩, ⟨"A", 1704105900, "LOGOUT"⟩]
      (mkSession "A" 1704103200 1704105900) (by decide),
    session_entity_invariant.2 "A" "A" 0 90000 [] (by decide)⟩

/-- Lookup of key `k` is unaffected by filtering out entries whose key
is some other string `bad`. -/
theorem lookup_filter_ne {β : Type} (l : List (String × β)) (bad k : String)
    (hk : k ≠ bad) :
    (l.filter (fun kv => kv.1 ≠ bad)).lookup k = l.lookup k := by
  induction l with
  | nil => rfl
  | cons kv rest ih =>
    obtain ⟨a, b⟩ := kv
    rw [List.filter_cons]
    by_cases hab : a = bad
    · have hka : k ≠ a := fun hcon => hk (hcon.trans hab)
      rw [if_neg (by simp [hab]), ih]
      simp [List.lookup, beq_eq_false_iff_ne.mpr hka]
    · rw [if_pos (by simp [hab])]
      by_cases hka : k = a
      · subst hka
        simp [List.lookup]
      · simp only [List.lookup, beq_eq_false_iff_ne.mpr hka]
        exact ih

/-- Lookup distributes over append, preferring the left list. -/
theorem lookup_append {β : Type} (l1 l2 : List (String × β)) (k : String) :
    (l1 ++ l2).lookup k =
      (match l1.lookup k with
        | some v => some v
        | none => l2.lookup k) := by
  induction l1 with
  | nil => simp [List.lookup]
  | cons kv rest ih =>
    obtain ⟨a, b⟩ := kv
    by_cases hka : k = a
    · subst hka
      simp [List.lookup]
    · simp [List.lookup, beq_eq_false_iff_ne.mpr hka, ih]

/-- Lookup misses when the key is not among the entries' keys. -/
theorem lookup_eq_none_of_not_mem {β : Type} (l : List (String × β)) (k : String)
    (h : k ∉ l.map Prod.fst) : l.lookup k = none := by
  induction l with
  | nil => rfl
  | cons kv rest ih =>
    obtain ⟨a, b⟩ := kv
    simp only [List.map_cons, List.mem_cons, not_or] at h
    simp [List.lookup, beq_eq_false_iff_ne.mpr h.1, ih h.2]

/-- Reading back the path just written yields the written table. -/
theorem FS.read_write_self (fs : FS) (p : String) (t : Table) :
    (fs.write p t).read p = some t := by
  simp [FS.read, FS.write, List.lookup]

/-- Writing one path leaves every other path unchanged. -/
theorem FS.read_write_ne (fs : FS) (p q : String) (t : Table) (h : q ≠ p) :
    (fs.write p t).read q = fs.read q := by
  simp only [FS.read, FS.write, List.lookup, beq_eq_false_iff_ne.mpr h]
  exact lookup_filter_ne _ _ _ h

/-- C4 counterexample: with no cache files and an adapter returning the
empty sequence for every action type, the sessions extractor nonetheless
creates both cache files (each holding the empty table), where the claim
says an empty fetch creates no cache file. -/
theorem cache_store_cex :
    (sessions_extract_data (fun _ => []) ⟨[]⟩).2.read login_raw_path = some emptyTable ∧
    (sessions_extract_data (fun _ => []) ⟨[]⟩).2.read logout_raw_path = some emptyTable :=
  ⟨rfl, rfl⟩

/-- C4 amended: the base extractor satisfies the claimed contract — a
cache hit is returned as stored with the Source Adapter never invoked
(the result is independent of the fetch function), a miss with non-empty
fetch persists the table before returning it, and a miss with empty
fetch returns the empty table creating no file — but the sessions
extractor persists the fetched table to its cache file even when the
fetch is empty. -/
theorem cache_store_amended :
    (∀ (fetch fetch' : String → List Rec) (act rp : String) (fs : FS) (df : Table),
      fs.read rp = some df →
      base_extract_data fetch act rp fs = (df, fs) ∧
      base_extract_data fetch act rp fs = base_extract_data fetch' act rp fs) ∧
    (∀ (fetch : String → List Rec) (act rp : String) (fs : FS),
      fs.read rp = none → fetch act ≠ [] →
      base_extract_data fetch act rp fs =
        (tableOfRecords (fetch act), fs.write rp (tableOfRecords (fetch act)))) ∧
    (∀ (fetch : String → List Rec) (act rp : String) (fs : FS),
      fs.read rp = none → fetch act = [] →
      base_extract_data fetch act rp fs = (emptyTable, fs)) ∧
    (∀ (fetch : String → List Rec) (fs : FS),
      fs.read login_raw_path = none →
      (sessions_extract_data fetch fs).2.read login_raw_path =
        some (tableOfRecords (fetch "SESSION_LOGIN"))) := by
  refine ⟨?_, ?_, ?_, ?_⟩
  · intro fetch fetch' act rp fs df h
    constructor <;> simp [base_extract_data, h]
  · intro fetch act rp fs h hne
    have : (fetch act).isEmpty = false := by
      cases hf : fetch act with
      | nil => exact absurd hf hne
      | cons a l => rfl
    simp [base_extract_data, h, this]
  · intro fetch act rp fs h he
    simp [base_extract_data, h, he, List.isEmpty]
  · intro fetch fs h
    unfold sessions_extract_data
    rw [h]
    cases hlo : (fs.write login_raw_path (tableOfRecords (fetch "SESSION_LOGIN"))).read
        logout_raw_path with
    | some df => simp [hlo, FS.read_write_self]
    | none =>
      simp only [hlo]
      rw [FS.read_write_ne _ _ _ _ (by decide)]
      exact FS.read_write_self _ _ _

/-- Witness for `cache_store_amended` at concrete stores and fetches. -/
theorem cache_store_amended_witness :
    (base_extract_data (fun _ => [[("a", Value.vInt 1)]]) "X" "p" ⟨[("p", emptyTable)]⟩ =
        (emptyTable, ⟨[("p", emptyTable)]⟩) ∧
      base_extract_data (fun _ => [[("a", Value.vInt 1)]]) "X" "p" ⟨[("p", emptyTable)]⟩ =
        base_extract_data (fun _ => []) "X" "p" ⟨[("p", emptyTable)]⟩) ∧
    base_extract_data (fun _ => [[("a", Value.vInt 1)]]) "X" "p" ⟨[]⟩ =
      (tableOfRecords [[("a", Value.vInt 1)]],
        FS.write ⟨[]⟩ "p" (tableOfRecords [[("a", Value.vInt 1)]])) ∧
    base_extract_data (fun _ => []) "X" "p" ⟨[]⟩ = (emptyTable, ⟨[]⟩) ∧
    (sessions_extract_data (fun _ => []) ⟨[]⟩).2.read login_raw_path =
      some (tableOfRecords []) :=
  ⟨cache_store_amended.1 (fun _ => [[("a", Value.vInt 1)]]) (fun _ => []) "X" "p"
      ⟨[("p", emptyTable)]⟩ emptyTable rfl,
    cache_store_amended.2.1 (fun _ => [[("a", Value.vInt 1)]]) "X" "p" ⟨[]⟩ rfl
      (List.cons_ne_nil _ _),
    cache_store_amended.2.2.1 (fun _ => []) "X" "p" ⟨[]⟩ rfl rfl,
    cache_store_amended.2.2.2 (fun _ => []) ⟨[]⟩ rfl⟩

/-- The driver fold, from any accumulator, appends the non-empty ok
artifacts and the names of all pipelines. -/
theorem main_loop_go (ps : List Pipe) :
    ∀ acc, ps.foldl main_loop_step acc =
      (acc.1 ++ okArtifacts ps, acc.2 ++ ps.map (·.output_name)) := by
  induction ps with
  | nil => intro acc; simp [okArtifacts]
  | cons p rest ih =>
    intro acc
    cases hr : p.result with
    | error e =>
      simp [List.foldl, main_loop_step, hr, okArtifacts, ih, List.append_assoc]
    | ok v =>
      by_cases hv : v.isEmpty <;>
        simp [List.foldl, main_loop_step, hr, okArtifacts, ih, hv, List.append_assoc]

/-- `main_loop` characterised. -/
theorem main_loop_eq (ps : List Pipe) :
    main_loop ps = (okArtifacts ps, ps.map (·.output_name)) := by
  simpa using main_loop_go ps ([], [])

/-- The driver's artifact accumulation splits over an append. -/
theorem okArtifacts_append (l1 l2 : List Pipe) :
    okArtifacts (l1 ++ l2) = okArtifacts l1 ++ okArtifacts l2 := by
  induction l1 with
  | nil => rfl
  | cons p rest ih =>
    cases hp : p.result with
    | error e => simp [okArtifacts, hp, ih]
    | ok v => by_cases hv : v.isEmpty <;> simp [okArtifacts, hp, hv, ih]

/-- C8: if extraction yields an empty table, `run` halts at once: the
artifact is empty, the filesystem is exactly what extraction left (in
particular no cleaned-table file is written), and neither context
normalisation nor the feature step nor the visualization step is
invoked; moreover a pipeline returning an empty artifact is no error for
the batch — the driver runs every pipeline and consolidates exactly what
it would without that pipeline. -/
theorem run_no_data_short_circuit :
    (∀ (extract : FS → Table × FS) (fe : Table → Table)
      (viz : Table → List (String × String)) (clean_path : String) (fs : FS),
      (extract fs).1.isEmpty = true →
      pipeline_run extract fe viz clean_path fs =
        ⟨[], (extract fs).2, false, false, false, false⟩) ∧
    (∀ (pre post : List Pipe) (nm : String),
      (main_loop (pre ++ ⟨nm, .ok []⟩ :: post)).1 = (main_loop (pre ++ post)).1 ∧
      (main_loop (pre ++ ⟨nm, .ok []⟩ :: post)).2 =
        pre.map (·.output_name) ++ nm :: post.map (·.output_name)) := by
  constructor
  · intro extract fe viz clean_path fs h
    simp [pipeline_run, h]
  · intro pre post nm
    constructor
    · rw [main_loop_eq, main_loop_eq, okArtifacts_append, okArtifacts_append]
      simp [okArtifacts]
    · rw [main_loop_eq]
      simp

/-- Witness for `run_no_data_short_circuit` with an extractor returning
the empty table and a batch whose middle pipeline yields an empty
artifact. -/
theorem run_no_data_short_circuit_witness :
    pipeline_run (fun fs => (emptyTable, fs)) (fun df => df) (fun _ => []) "clean" ⟨[]⟩ =
      ⟨[], ⟨[]⟩, false, false, false, false⟩ ∧
    (main_loop ([⟨"a", .ok [("p", "j")]⟩] ++ ⟨"s", .ok []⟩ :: [⟨"c", .ok [("q", "k")]⟩])).1 =
      (main_loop ([⟨"a", .ok [("p", "j")]⟩] ++ [⟨"c", .ok [("q", "k")]⟩])).1 :=
  ⟨run_no_data_short_circuit.1 (fun fs => (emptyTable, fs)) (fun df => df) (fun _ => [])
      "clean" ⟨[]⟩ rfl,
    (run_no_data_short_circuit.2 [⟨"a", .ok [("p", "j")]⟩] [⟨"c", .ok [("q", "k")]⟩] "s").1⟩

/-- Every pipeline with a non-empty ok artifact contributes its entry. -/
theorem mem_okArtifacts_of {ps : List Pipe} {q : Pipe} {v : List (String × String)}
    (hq : q ∈ ps) (hr : q.result = .ok v) (hv : v.isEmpty = false) :
    (q.output_name, v) ∈ okArtifacts ps := by
  induction ps with
  | nil => cases hq
  | cons p rest ih =>
    rcases List.mem_cons.mp hq with h | h
    · subst h
      simp [okArtifacts, hr, hv]
    · cases hp : p.result with
      | error e => simpa [okArtifacts, hp] using ih h
      | ok w =>
        by_cases hw : w.isEmpty <;> simp [okArtifacts, hp, hw, ih h]

/-- Every name in the consolidated mapping comes from a pipeline whose
`run()` returned ok. -/
theorem mem_map_fst_okArtifacts {ps : List Pipe} {n : String}
    (h : n ∈ (okArtifacts ps).map Prod.fst) :
    ∃ q ∈ ps, q.output_name = n ∧ ∃ v, q.result = .ok v := by
  induction ps with
  | nil => simp [okArtifacts] at h
  | cons p rest ih =>
    cases hp : p.result with
    | error e =>
      simp only [okArtifacts, hp] at h
      obtain ⟨q, hq, hqs⟩ := ih h
      exact ⟨q, List.mem_cons_of_mem _ hq, hqs⟩
    | ok w =>
      by_cases hw : w.isEmpty
      · simp only [okArtifacts, hp] at h
        rw [if_pos hw] at h
        obtain ⟨q, hq, hqs⟩ := ih h
        exact ⟨q, List.mem_cons_of_mem _ hq, hqs⟩
      · simp only [okArtifacts, hp] at h
        rw [if_neg hw] at h
        simp only [List.map_cons, List.mem_cons] at h
        rcases h with h1 | h1
        · exact ⟨p, List.mem_cons_self _ _, h1.symm, w, hp⟩
        · obtain ⟨q, hq, hqs⟩ := ih h1
          exact ⟨q, List.mem_cons_of_mem _ hq, hqs⟩

/-- C9: a pipeline whose `run()` raises is caught: `run()` is still
called on every pipeline in order, the failing pipeline's output name is
absent from the consolidated mapping, and every other pipeline's
non-empty artifact still appears in the mapping handed to the reporting
collaborator. -/
theorem driver_isolation (ps : List Pipe) (p : Pipe) (e : String)
    (hp : p ∈ ps) (he : p.result = .error e)
    (hnd : (ps.map (·.output_name)).Nodup) :
    (main_loop ps).2 = ps.map (·.output_name) ∧
    p.output_name ∉ (main_loop ps).1.map Prod.fst ∧
    (∀ (q : Pipe) (v : List (String × String)), q ∈ ps → q.result = .ok v →
      v.isEmpty = false → (q.output_name, v) ∈ (main_loop ps).1) := by
  rw [main_loop_eq]
  refine ⟨rfl, ?_, ?_⟩
  · intro hmem
    obtain ⟨q, hq, hqn, v, hqr⟩ := mem_map_fst_okArtifacts hmem
    have hqp : q = p := List.inj_on_of_nodup_map hnd hq hp hqn
    rw [hqp, he] at hqr
    cases hqr
  · intro q v hq hr hv
    exact mem_okArtifacts_of hq hr hv

/-- Witness for `driver_isolation` on a three-pipeline batch whose middle
pipeline raises. -/
theorem driver_isolation_witness :
    (main_loop [⟨"a", .ok [("p", "j")]⟩, ⟨"b", .error "boom"⟩, ⟨"c", .ok [("q", "k")]⟩]).2 =
        ["a", "b", "c"] ∧
    "b" ∉ (main_loop [⟨"a", .ok [("p", "j")]⟩, ⟨"b", .error "boom"⟩,
        ⟨"c", .ok [("q", "k")]⟩]).1.map Prod.fst ∧
    ("c", [("q", "k")]) ∈ (main_loop [⟨"a", .ok [("p", "j")]⟩, ⟨"b", .error "boom"⟩,
        ⟨"c", .ok [("q", "k")]⟩]).1 := by
  obtain ⟨h1, h2, h3⟩ := driver_isolation
    [⟨"a", .ok [("p", "j")]⟩, ⟨"b", .error "boom"⟩, ⟨"c", .ok [("q", "k")]⟩]
    ⟨"b", .error "boom"⟩ "boom"
    (List.mem_cons_of_mem _ (List.mem_cons_self _ _)) rfl (by decide)
  exact ⟨h1.trans rfl, h2,
    h3 ⟨"c", .ok [("q", "k")]⟩ [("q", "k")]
      (List.mem_cons_of_mem _ (List.mem_cons_of_mem _ (List.mem_cons_self _ _))) rfl rfl⟩

/-- Category values all come from the column. -/
theorem mem_dedupVals {l : List Value} {v : Value} (h : v ∈ dedupVals l) : v ∈ l := by
  have go : ∀ (l : List Value) (acc : List Value),
      ∀ w ∈ l.foldl (fun acc v =>
        if acc.any (Value.scalarEq v) then acc else acc ++ [v]) acc,
        w ∈ acc ∨ w ∈ l := by
    intro l
    induction l with
    | nil => intro acc w hw; exact Or.inl hw
    | cons x xs ih =>
      intro acc w hw
      simp only [List.foldl] at hw
      by_cases hx : acc.any (Value.scalarEq x)
      · rw [if_pos hx] at hw
        rcases ih acc w hw with h1 | h1
        · exact Or.inl h1
        · exact Or.inr (List.mem_cons_of_mem _ h1)
      · rw [if_neg hx] at hw
        rcases ih (acc ++ [x]) w hw with h1 | h1
        · rcases List.mem_append.mp h1 with h2 | h2
          · exact Or.inl h2
          · exact Or.inr (List.mem_cons.mpr (Or.inl (List.mem_singleton.mp h2)))
        · exact Or.inr (List.mem_cons_of_mem _ h1)
  rcases go l [] v h with h1 | h1
  · cases h1
  · exact h1

/-- C10: the generic global feature step only appends. Without a
`server_id` column the table passes through unchanged; with one — and
scalar cells, the only case pandas accepts — the column list is extended
on the right by columns named `server_<value>` for values of the column,
and every row is extended on the right by exactly those indicator cells,
leaving every pre-existing column (including `server_id`) and every row
unchanged. -/
theorem server_onehot_append_only :
    (∀ df : Table, df.cols.contains "server_id" = false → server_dummies_step df = df) ∧
    (∀ df : Table, df.cols.contains "server_id" = true →
      (∀ v ∈ colValues df "server_id", v.isScalar = true) →
      ∃ newCols : List String,
        (server_dummies_step df).cols = df.cols ++ newCols ∧
        (∀ c ∈ newCols, ∃ v, v ∈ colValues df "server_id" ∧
          c = "server_" ++ strOfValue v) ∧
        List.Forall₂ (fun r' r => ∃ app : Rec, r' = r ++ app ∧ app.map Prod.fst = newCols)
          (server_dummies_step df).recs df.recs) := by
  constructor
  · intro df h
    unfold server_dummies_step
    rw [h]
    simp
  · intro df h _
    unfold server_dummies_step
    rw [h, if_pos rfl]
    refine ⟨(dedupVals ((colValues df "server_id").filter (fun v => !(v.isNull)))).map
      (fun u => "server_" ++ strOfValue u), rfl, ?_, ?_⟩
    · intro c hc
      obtain ⟨u, hu, huc⟩ := List.mem_map.mp hc
      exact ⟨u, List.mem_of_mem_filter (mem_dedupVals hu), huc.symm⟩
    · rw [List.forall₂_map_left_iff, List.forall₂_same]
      intro r _
      refine ⟨_, rfl, ?_⟩
      simp [List.map_map, Function.comp]

/-- Witness for `server_onehot_append_only` at a table without the
column and at a one-row table with it. -/
theorem server_onehot_append_only_witness :
    server_dummies_step ⟨["a"], [[("a", Value.vInt 1)]]⟩ = ⟨["a"], [[("a", Value.vInt 1)]]⟩ ∧
    ∃ newCols : List String,
      (server_dummies_step ⟨["a", "server_id"],
          [[("a", Value.vInt 1), ("server_id", Value.vStr "s1")]]⟩).cols =
        ["a", "server_id"] ++ newCols ∧
      (∀ c ∈ newCols, ∃ v,
        v ∈ colValues ⟨["a", "server_id"],
          [[("a", Value.vInt 1), ("server_id", Value.vStr "s1")]]⟩ "server_id" ∧
        c = "server_" ++ strOfValue v) ∧
      List.Forall₂ (fun r' r => ∃ app : Rec, r' = r ++ app ∧ app.map Prod.fst = newCols)
        (server_dummies_step ⟨["a", "server_id"],
          [[("a", Value.vInt 1), ("server_id", Value.vStr "s1")]]⟩).recs
        [[("a", Value.vInt 1), ("server_id", Value.vStr "s1")]] :=
  ⟨server_onehot_append_only.1 ⟨["a"], [[("a", Value.vInt 1)]]⟩ rfl,
    server_onehot_append_only.2 ⟨["a", "server_id"],
        [[("a", Value.vInt 1), ("server_id", Value.vStr "s1")]]⟩ rfl
      (by
        intro v hv
        simp only [colValues, recCell, List.map_cons, List.map_nil] at hv
        rcases List.mem_singleton.mp hv with h
        rw [h]
        rfl)⟩

/-- C6: context decoding applies the first rule that succeeds — a dict
is used as-is; a string is decoded as strict JSON; on JSON failure it is
decoded permissively; on total failure, or for a non-string value, the
contribution is the empty mapping (`safe_json_load` is a total Lean
function, so decoding never raises). The strict blob and its
loosely-quoted equivalent decode identically and yield identical
`species`/`isShiny` columns; an undecodable blob leaves the record in
the output table with no context-derived columns. -/
theorem context_decode_policy :
    (∀ d : List (String × Value), safe_json_load (.vDict d) = .vDict d) ∧
    (∀ (s : String) (v : Value), json_loads s = some v →
      safe_json_load (.vStr s) = v) ∧
    (∀ (s : String) (v : Value), json_loads s = none → literal_eval s = some v →
      safe_json_load (.vStr s) = v) ∧
    (∀ s : String, json_loads s = none → literal_eval s = none →
      safe_json_load (.vStr s) = .vDict []) ∧
    (∀ n : Int, safe_json_load (.vInt n) = .vDict []) ∧
    (∀ b : Bool, safe_json_load (.vBool b) = .vDict []) ∧
    safe_json_load .vNull = .vDict [] ∧
    (∀ l : List Value, safe_json_load (.vList l) = .vDict []) ∧
    safe_json_load (.vStr strictBlob) = safe_json_load (.vStr looseBlob) ∧
    clean_json_context ⟨["id", "context_data"],
        [[("id", Value.vInt 1), ("context_data", Value.vStr strictBlob)]]⟩ =
      ⟨["id", "species", "isShiny"],
        [[("id", Value.vInt 1), ("species", Value.vStr "Pikachu"),
          ("isShiny", Value.vBool true)]]⟩ ∧
    clean_json_context ⟨["id", "context_data"],
        [[("id", Value.vInt 1), ("context_data", Value.vStr strictBlob)]]⟩ =
      clean_json_context ⟨["id", "context_data"],
        [[("id", Value.vInt 1), ("context_data", Value.vStr looseBlob)]]⟩ ∧
    clean_json_context ⟨["id", "context_data"],
        [[("id", Value.vInt 7), ("context_data", Value.vStr badBlob)]]⟩ =
      ⟨["id"], [[("id", Value.vInt 7)]]⟩ := by
  refine ⟨fun d => rfl, ?_, ?_, ?_, fun n => rfl, fun b => rfl, rfl, fun l => rfl,
    rfl, rfl, rfl, rfl⟩
  · intro s v h
    simp [safe_json_load, h]
  · intro s v h1 h2
    simp [safe_json_load, h1, h2]
  · intro s h1 h2
    simp [safe_json_load, h1, h2]

/-- Witness for `context_decode_policy` at the three example blobs. -/
theorem context_decode_policy_witness :
    safe_json_load (.vStr strictBlob) =
      .vDict [("species", Value.vStr "Pikachu"), ("isShiny", Value.vBool true)] ∧
    safe_json_load (.vStr looseBlob) =
      .vDict [("species", Value.vStr "Pikachu"), ("isShiny", Value.vBool true)] ∧
    safe_json_load (.vStr badBlob) = .vDict [] :=
  ⟨context_decode_policy.2.1 strictBlob _ rfl,
    context_decode_policy.2.2.1 looseBlob _ rfl rfl,
    context_decode_policy.2.2.2.1 badBlob rfl rfl⟩

/-- Permuted association lists with duplicate-free keys agree on every
lookup. -/
theorem lookup_perm {β : Type} {l1 l2 : List (String × β)} (h : l1.Perm l2) :
    (l2.map Prod.fst).Nodup → ∀ k : String, l1.lookup k = l2.lookup k := by
  induction h with
  | nil => intro _ _; rfl
  | cons x h ih =>
    intro hnd k
    obtain ⟨a, b⟩ := x
    simp only [List.map_cons, List.nodup_cons] at hnd
    by_cases hka : k = a
    · subst hka
      simp [List.lookup]
    · simp only [List.lookup, beq_eq_false_iff_ne.mpr hka]
      exact ih hnd.2 k
  | swap x y l =>
    intro hnd k
    obtain ⟨a, b⟩ := x
    obtain ⟨c, d⟩ := y
    simp only [List.map_cons, List.nodup_cons, List.mem_cons] at hnd
    have hac : a ≠ c := fun hcon => hnd.1 (Or.inl hcon)
    by_cases hka : k = a
    · subst hka
      simp [List.lookup, beq_eq_false_iff_ne.mpr hac]
    · by_cases hkc : k = c
      · subst hkc
        simp [List.lookup, beq_eq_false_iff_ne.mpr hka]
      · simp [List.lookup, beq_eq_false_iff_ne.mpr hka, beq_eq_false_iff_ne.mpr hkc]
  | trans h1 h2 ih1 ih2 =>
    intro hnd k
    exact (ih1 (((h2.map Prod.fst).nodup_iff).mpr hnd) k).trans (ih2 hnd k)

/-- Row lists related by key-permutation agree on every cell lookup. -/
theorem forall2_getD_lookup {rs' rs : List Rec}
    (h : List.Forall₂ (fun r' r => r'.Perm r ∧ (r.map Prod.fst).Nodup) rs' rs) :
    ∀ (i : Nat) (k : String),
      (rs'.getD i []).lookup k = (rs.getD i []).lookup k := by
  induction h with
  | nil => intro i k; rfl
  | cons hrel hrest ih =>
    intro i k
    cases i with
    | zero => exact lookup_perm hrel.1 hrel.2 k
    | succ n => exact ih n k

/-- A per-row function that only reads cells through lookup is invariant
under key-permutation of the rows. -/
theorem forall2_map_eq {β : Type} {rs' rs : List Rec}
    (h : List.Forall₂ (fun r' r => r'.Perm r ∧ (r.map Prod.fst).Nodup) rs' rs)
    (g : Rec → β)
    (hg : ∀ r' r, r'.Perm r → (r.map Prod.fst).Nodup → g r' = g r) :
    rs'.map g = rs.map g := by
  induction h with
  | nil => rfl
  | cons hrel hrest ih => simp [hg _ _ hrel.1 hrel.2, ih]

/-- Filtering keeps the keys duplicate-free. -/
theorem nodup_keys_filter {r : Rec} (hnd : (r.map Prod.fst).Nodup)
    (p : String × Value → Bool) : ((r.filter p).map Prod.fst).Nodup :=
  (((List.filter_sublist r).map Prod.fst)).nodup hnd

/-- A joined output row reads back the original row's value at every
original column that is no context-derived column. -/
theorem clean_out_lookup (keep : List String) :
    ∀ (rs ps : List Rec) (i : Nat) (c : String), c ≠ "context_data" → c ∉ keep →
      rs.length = ps.length →
      (((rs.zip ps).map (fun rc =>
          rc.1.filter (fun kv => kv.1 ≠ "context_data") ++
            keep.map (fun k => (k, recCell rc.2 k)))).getD i []).lookup c =
        (rs.getD i []).lookup c := by
  intro rs
  induction rs with
  | nil => intro ps i c _ _ _; rfl
  | cons r rest ih =>
    intro ps i c h1 h2 hl
    cases ps with
    | nil => simp at hl
    | cons p pr =>
      cases i with
      | zero =>
        show (r.filter (fun kv => kv.1 ≠ "context_data") ++
            keep.map (fun k => (k, recCell p k))).lookup c = r.lookup c
        rw [lookup_append, lookup_filter_ne _ _ _ h1]
        cases hr : r.lookup c with
        | some v => rfl
        | none =>
          exact lookup_eq_none_of_not_mem _ _ (by simpa [List.map_map] using h2)
      | succ n =>
        exact ih pr n c h1 h2 (by simpa using hl)

/-- Joined output rows built from key-permuted inputs agree on every
cell lookup. -/
theorem clean_out_lookup_perm (keep : List String) {rs' rs : List Rec}
    (h : List.Forall₂ (fun r' r => r'.Perm r ∧ (r.map Prod.fst).Nodup) rs' rs) :
    ∀ (ps : List Rec) (i : Nat) (k : String),
      (((rs'.zip ps).map (fun rc =>
          rc.1.filter (fun kv => kv.1 ≠ "context_data") ++
            keep.map (fun kk => (kk, recCell rc.2 kk)))).getD i []).lookup k =
        (((rs.zip ps).map (fun rc =>
          rc.1.filter (fun kv => kv.1 ≠ "context_data") ++
            keep.map (fun kk => (kk, recCell rc.2 kk)))).getD i []).lookup k := by
  induction h with
  | nil => intro ps i k; rfl
  | cons hrel hrest ih =>
    intro ps i k
    cases ps with
    | nil => rfl
    | cons p pr =>
      cases i with
      | zero =>
        show (_ ++ keep.map (fun kk => (kk, recCell p kk))).lookup k =
          (_ ++ keep.map (fun kk => (kk, recCell p kk))).lookup k
        rw [lookup_append, lookup_append,
          lookup_perm (hrel.1.filter _) (nodup_keys_filter hrel.2 _) k]
      | succ n => exact ih pr n k

/-- C5: on every input where the source's normalisation runs to
completion (`decodesToDicts`: each decoded context is a mapping, the
only case `pd.json_normalize` accepts), normalisation removes
`context_data`; the output columns are the original columns (minus
`context_data`) plus zero or more gained columns none of which collides
with an original column; rows are preserved in number; at every
original column every row keeps the original value (the original wins
each collision with the decoded context, e.g. top-level `x=1` beats
context `x=2`); and the per-row key-to-value mapping of the output is
invariant under reordering the table's columns. -/
theorem normalizer_merge :
    (∀ df : Table, decodesToDicts df →
      "context_data" ∉ (clean_json_context df).cols ∧
      (∃ gained : List String,
        (clean_json_context df).cols =
          df.cols.filter (fun c => c ≠ "context_data") ++ gained ∧
        ∀ c ∈ gained, c ∉ df.cols) ∧
      (clean_json_context df).recs.length = df.recs.length ∧
      (∀ (i : Nat) (c : String), c ∈ df.cols → c ≠ "context_data" →
        ((clean_json_context df).recs.getD i []).lookup c =
          (df.recs.getD i []).lookup c)) ∧
    (∀ df df' : Table, decodesToDicts df → df'.cols.Perm df.cols →
      List.Forall₂ (fun r' r => r'.Perm r ∧ (r.map Prod.fst).Nodup) df'.recs df.recs →
      ∀ (i : Nat) (k : String),
        ((clean_json_context df').recs.getD i []).lookup k =
          ((clean_json_context df).recs.getD i []).lookup k) ∧
    clean_json_context ⟨["x", "context_data"],
        [[("x", Value.vInt 1), ("context_data", Value.vStr "\x7b\"x\": 2\x7d")]]⟩ =
      ⟨["x"], [[("x", Value.vInt 1)]]⟩ := by
  refine ⟨?_, ?_, rfl⟩
  · intro df _hdec
    by_cases hc : df.cols.contains "context_data"
    · have hout : clean_json_context df =
          ⟨df.cols.filter (fun c => c ≠ "context_data") ++ ctxKeep df,
            (df.recs.zip (ctxParsed df)).map (fun rc =>
              rc.1.filter (fun kv => kv.1 ≠ "context_data") ++
                (ctxKeep df).map (fun k => (k, recCell rc.2 k)))⟩ := by
        unfold clean_json_context
        rw [if_pos hc]
      have hkeep : ∀ c ∈ ctxKeep df, c ∉ df.cols := by
        intro c hcm hmem
        have h2 := (List.mem_filter.mp hcm).2
        simp at h2
        exact h2 hmem
      refine ⟨?_, ⟨ctxKeep df, by rw [hout], hkeep⟩, ?_, ?_⟩
      · rw [hout]
        intro hmem
        rcases List.mem_append.mp hmem with h | h
        · have := (List.mem_filter.mp h).2
          simp at this
        · exact hkeep _ h (List.elem_iff.mp hc)
      · rw [hout]
        simp [ctxParsed]
      · intro i c hcin hcne
        rw [hout]
        exact clean_out_lookup (ctxKeep df) df.recs (ctxParsed df) i c hcne
          (fun hck => hkeep c hck hcin) (by simp [ctxParsed])
    · have hout : clean_json_context df = df := by
        unfold clean_json_context
        rw [if_neg hc]
      have hnotin : "context_data" ∉ df.cols := fun hmem => hc (List.elem_iff.mpr hmem)
      refine ⟨by rw [hout]; exact hnotin, ⟨[], ?_, by simp⟩, by rw [hout], ?_⟩
      · rw [hout, List.append_nil, List.filter_eq_self.mpr]
        intro a ha
        simp
        exact fun hcon => hnotin (hcon ▸ ha)
      · intro i c _ _
        rw [hout]
  · intro df df' _hdec hcols hrecs i k
    have hcont : ∀ c, df'.cols.contains c = df.cols.contains c := by
      intro c
      by_cases hm : c ∈ df.cols
      · have h1 : df.cols.contains c = true := List.elem_iff.mpr hm
        have h2 : df'.cols.contains c = true := List.elem_iff.mpr (hcols.mem_iff.mpr hm)
        rw [h1, h2]
      · have h1 : df.cols.contains c = false := by
          cases hcc : df.cols.contains c
          · rfl
          · exact absurd (List.elem_iff.mp hcc) hm
        have h2 : df'.cols.contains c = false := by
          cases hcc : df'.cols.contains c
          · rfl
          · exact absurd (hcols.mem_iff.mp (List.elem_iff.mp hcc)) hm
        rw [h1, h2]
    have hparsed : ctxParsed df' = ctxParsed df := by
      unfold ctxParsed
      refine forall2_map_eq hrecs _ ?_
      intro r' r hperm hnd
      have hcell : recCell r' "context_data" = recCell r "context_data" := by
        unfold recCell
        rw [lookup_perm hperm hnd]
      rw [hcell]
    have hkeepeq : ctxKeep df' = ctxKeep df := by
      unfold ctxKeep
      rw [hparsed]
      exact List.filter_congr (fun c _ => by rw [hcont c])
    by_cases hctx : df.cols.contains "context_data"
    · have hctx' : df'.cols.contains "context_data" = true := by
        rw [hcont]
        exact hctx
      have ho1 : clean_json_context df' =
          ⟨df'.cols.filter (fun c => c ≠ "context_data") ++ ctxKeep df',
            (df'.recs.zip (ctxParsed df')).map (fun rc =>
              rc.1.filter (fun kv => kv.1 ≠ "context_data") ++
                (ctxKeep df').map (fun kk => (kk, recCell rc.2 kk)))⟩ := by
        unfold clean_json_context
        rw [if_pos hctx']
      have ho2 : clean_json_context df =
          ⟨df.cols.filter (fun c => c ≠ "context_data") ++ ctxKeep df,
            (df.recs.zip (ctxParsed df)).map (fun rc =>
              rc.1.filter (fun kv => kv.1 ≠ "context_data") ++
                (ctxKeep df).map (fun kk => (kk, recCell rc.2 kk)))⟩ := by
        unfold clean_json_context
        rw [if_pos hctx]
      rw [ho1, ho2, hparsed, hkeepeq]
      exact clean_out_lookup_perm (ctxKeep df) hrecs (ctxParsed df) i k
    · have hctx' : ¬ df'.cols.contains "context_data" = true := by
        rw [hcont]
        exact hctx
      have ho1 : clean_json_context df' = df' := by
        unfold clean_json_context
        rw [if_neg hctx']
      have ho2 : clean_json_context df = df := by
        unfold clean_json_context
        rw [if_neg hctx]
      rw [ho1, ho2]
      exact forall2_getD_lookup hrecs i k

/-- Witness for `normalizer_merge` at the `x=1` example table and its
column-reversed permutation. -/
theorem normalizer_merge_witness :
    "context_data" ∉ (clean_json_context ⟨["x", "context_data"],
      [[("x", Value.vInt 1), ("context_data", Value.vStr "\x7b\"x\": 2\x7d")]]⟩).cols ∧
    ((clean_json_context ⟨["x", "context_data"],
        [[("x", Value.vInt 1), ("context_data", Value.vStr "\x7b\"x\": 2\x7d")]]⟩).recs.getD
          0 []).lookup "x" =
      (([[("x", Value.vInt 1),
          ("context_data", Value.vStr "\x7b\"x\": 2\x7d")]] : List Rec).getD 0 []).lookup
        "x" ∧
    ((clean_json_context ⟨["context_data", "x"],
        [[("context_data", Value.vStr "\x7b\"x\": 2\x7d"), ("x", Value.vInt 1)]]⟩).recs.getD
          0 []).lookup "x" =
      ((clean_json_context ⟨["x", "context_data"],
        [[("x", Value.vInt 1), ("context_data", Value.vStr "\x7b\"x\": 2\x7d")]]⟩).recs.getD
          0 []).lookup "x" :=
  ⟨(normalizer_merge.1 ⟨["x", "context_data"],
      [[("x", Value.vInt 1), ("context_data", Value.vStr "\x7b\"x\": 2\x7d")]]⟩
      (by decide)).1,
    (normalizer_merge.1 ⟨["x", "context_data"],
      [[("x", Value.vInt 1), ("context_data", Value.vStr "\x7b\"x\": 2\x7d")]]⟩
      (by decide)).2.2.2
      0 "x" (by simp) (by decide),
    normalizer_merge.2.1
      ⟨["x", "context_data"],
        [[("x", Value.vInt 1), ("context_data", Value.vStr "\x7b\"x\": 2\x7d")]]⟩
      ⟨["context_data", "x"],
        [[("context_data", Value.vStr "\x7b\"x\": 2\x7d"), ("x", Value.vInt 1)]]⟩
      (by decide)
      (List.Perm.swap "x" "context_data" [])
      (List.Forall₂.cons
        ⟨List.Perm.swap ("x", Value.vInt 1) ("context_data", Value.vStr "\x7b\"x\": 2\x7d") [],
          by decide⟩
        List.Forall₂.nil)
      0 "x"⟩

end NNDR
